import Mathlib

/-!
Verification of the linguistics engine in `src/shared/linguistics.ts`.

The engine is shallowly embedded: strings are lists of characters
(`Str := List Char`), JS regexes of the shape `\bterm\b` with flags `gi`
(the only shape the engine compiles; the constructor escapes regex
metacharacters so the term is matched literally) are embedded as an
explicit scan for a literal, case-folded occurrence of the term flanked
by `\b` word boundaries, and the stateful `lastIndex` of a global-flag
regex is carried explicitly in each compiled pattern.  JS `number`
arithmetic on the confidence score is modelled by exact rationals
(`0.7 = 7/10`, `0.05 = 1/20`).  Case-insensitive (`i`-flag) comparison
is modelled by ASCII case folding, which coincides with JS semantics on
the all-ASCII dictionary.  The JS `Map` backing the dynamic-term store
is modelled by an association list with insert-or-overwrite-in-place
semantics, and `Array.prototype.sort` (stable since ES2019) by a stable
insertion sort, which computes the unique stable ordering for the
comparator `(a, b) => b.term.length - a.term.length`.
-/

set_option maxRecDepth 40000

inductive LinguisticCategory where
  | GEN_Z | AAVE | TECH | STARTUP | DESIGN
  | SOUTHERN | UK | HIPHOP | GAMING | HISPANIC | EMOTIONAL
deriving DecidableEq, Repr

abbrev Str := List Char

/-- The name of a category as a string, as interpolated by JS in the
dedup key `term + ":" + category`. -/
def catName : LinguisticCategory → Str
  | .GEN_Z => "GEN_Z".data
  | .AAVE => "AAVE".data
  | .TECH => "TECH".data
  | .STARTUP => "STARTUP".data
  | .DESIGN => "DESIGN".data
  | .SOUTHERN => "SOUTHERN".data
  | .UK => "UK".data
  | .HIPHOP => "HIPHOP".data
  | .GAMING => "GAMING".data
  | .HISPANIC => "HISPANIC".data
  | .EMOTIONAL => "EMOTIONAL".data

/-- ASCII case folding on character codes: `A`-`Z` map to `a`-`z`.
Models the regex `i` flag on the engine's all-ASCII terms. -/
def foldCode (n : Nat) : Nat := if 65 ≤ n ∧ n ≤ 90 then n + 32 else n

def charFold (c : Char) : Nat := foldCode c.toNat

/-- JS regex word characters `\w = [A-Za-z0-9_]`, by character code. -/
def isWordCode (n : Nat) : Bool :=
  decide ((48 ≤ n ∧ n ≤ 57) ∨ (65 ≤ n ∧ n ≤ 90) ∨ (97 ≤ n ∧ n ≤ 122) ∨ n = 95)

def isWordChar (c : Char) : Bool := isWordCode c.toNat

/-- Is the character at position `p` of `t` a word character?  Out of
range counts as a non-word character (string start/end). -/
def wordAt (t : Str) (p : Nat) : Bool :=
  decide (p < t.length) && isWordChar (t.getD p ' ')

/-- The `\b` assertion of JS regexes at position `p` of `t`: the two
sides of the position disagree on word-character-ness. -/
def boundaryAt (t : Str) (p : Nat) : Bool :=
  (if p = 0 then false else wordAt t (p - 1)) != wordAt t p

/-- The term occurs literally (up to ASCII case folding) at position
`i` of `t`. -/
def occursAt (term t : Str) (i : Nat) : Bool :=
  decide (i + term.length ≤ t.length) &&
    (List.range term.length).all fun j =>
      charFold (t.getD (i + j) ' ') == charFold (term.getD j ' ')

/-- The regex `\b` + escaped term + `\b` (flags `gi`) matches at
position `i` of `t`. -/
def matchAt (term t : Str) (i : Nat) : Bool :=
  boundaryAt t i && boundaryAt t (i + term.length) && occursAt term t i

/-- Leftmost match position at or after `start`, as a global-flag JS
regex searches from `lastIndex`. -/
def firstMatchFrom (term t : Str) (start : Nat) : Option Nat :=
  ((List.range (t.length + 1)).filter fun i =>
    decide (start ≤ i) && matchAt term t i).head?

/-- Models `regex.test(t)` for a `g`-flag regex with state `lastIndex = li`:
returns the success bit and the updated `lastIndex` (past the match on
success, reset to `0` on failure, per the JS `RegExp` specification). -/
def testS (term t : Str) (li : Nat) : Bool × Nat :=
  match firstMatchFrom term t li with
  | some i => (true, i + term.length)
  | none => (false, 0)

/-- Models `regex.test(t)` from a fresh (or reset) `lastIndex` of `0`: does
the pattern match anywhere in `t`?  This is the pattern's matcher. -/
def regexTest (term t : Str) : Bool := (testS term t 0).1

structure LinguisticTerm where
  term : Str
  meaning : Str
  category : LinguisticCategory
deriving DecidableEq, Repr

structure TranslationResult where
  original : Str
  terms : List LinguisticTerm
  confidence : ℚ
  translatedText : Str
deriving DecidableEq, Repr

/-- A compiled pattern: the stored metadata of `interface
CompiledPattern` plus the mutable `lastIndex` of its `gi`-flag regex
(the regex itself is determined by `term`, see `regexTest`). -/
structure CompiledPattern where
  term : Str
  meaning : Str
  category : LinguisticCategory
  lastIndex : Nat
deriving DecidableEq, Repr

/-- The dedup key: the pattern's term, a colon, then the category name. -/
def patKey (p : CompiledPattern) : Str := p.term ++ (':' :: catName p.category)

/-- The key of an already-recorded result entry, same format. -/
def entryKey (x : LinguisticTerm) : Str := x.term ++ (':' :: catName x.category)

/-- The result entry pushed for a matching pattern. -/
def entryOf (p : CompiledPattern) : LinguisticTerm :=
  ⟨p.term, p.meaning, p.category⟩

/-- Engine state: the static compiled-pattern list and the dynamic
store (a JS `Map` from lowercased term, modelled as an association
list in insertion order, keyed by folded character codes). -/
structure Engine where
  patterns : List CompiledPattern
  dynamicPatterns : List (List Nat × CompiledPattern)
deriving DecidableEq, Repr

def dynVals (e : Engine) : List CompiledPattern := e.dynamicPatterns.map (·.2)

/-- Models `Map.set k v`: overwrite in place if the key is present, else
append (JS `Map` preserves first-insertion order on overwrite). -/
def mapSet (m : List (List Nat × CompiledPattern)) (k : List Nat)
    (v : CompiledPattern) : List (List Nat × CompiledPattern) :=
  if k ∈ m.map Prod.fst then
    m.map fun kv => if kv.1 = k then (k, v) else kv
  else m ++ [(k, v)]

/-- Models `addDynamicTerm`: compile and store under the lowercased term. -/
def addDynamicTerm (e : Engine) (term meaning : Str)
    (category : LinguisticCategory) : Engine :=
  { e with dynamicPatterns :=
      mapSet e.dynamicPatterns (term.map charFold) ⟨term, meaning, category, 0⟩ }

/-- Models `loadDynamicTerms`: bulk registration via `addDynamicTerm`. -/
def loadDynamicTerms (e : Engine)
    (l : List (Str × Str × LinguisticCategory)) : Engine :=
  l.foldl (fun e t => addDynamicTerm e t.1 t.2.1 t.2.2) e

/-- One iteration of the matching loop: test the pattern from its
current `lastIndex`; on success record the entry unless its key was
already recorded, then reset `lastIndex` to `0` (the explicit reset in
the source; on failure `test` has already reset it). -/
def stepPat (input : Str) (acc : List LinguisticTerm × List Str)
    (p : CompiledPattern) : (List LinguisticTerm × List Str) × CompiledPattern :=
  let r := testS p.term input p.lastIndex
  if r.1 then
    if patKey p ∈ acc.2 then (acc, { p with lastIndex := 0 })
    else ((acc.1 ++ [entryOf p], acc.2 ++ [patKey p]), { p with lastIndex := 0 })
  else (acc, { p with lastIndex := r.2 })

/-- Run the matching loop over a pattern list, threading the found
entries, the found key set, and the per-pattern regex state. -/
def runPats (input : Str) :
    List CompiledPattern → (List LinguisticTerm × List Str) →
    (List LinguisticTerm × List Str) × List CompiledPattern
  | [], acc => (acc, [])
  | p :: ps, acc =>
    let s := stepPat input acc p
    let rest := runPats input ps s.1
    (rest.1, s.2 :: rest.2)

/-- Models `translate`, with the regex state threaded explicitly: returns the
`TranslationResult` together with the post-call engine state. -/
def translateS (e : Engine) (input : Str) : TranslationResult × Engine :=
  if input.isEmpty then
    ({ original := [], terms := [], confidence := 1, translatedText := input }, e)
  else
    let s1 := runPats input e.patterns ([], [])
    let s2 := runPats input (dynVals e) s1.1
    ({ original := input,
       terms := s2.1.1,
       confidence := min 1 (7/10 + (s2.1.1.length : ℚ) * (1/20)),
       translatedText := input },
     { patterns := s1.2,
       dynamicPatterns := (e.dynamicPatterns.map Prod.fst).zip s2.2 })

/-- All regex `lastIndex` state is `0` (as at construction, and as
restored after every `translate`). -/
def allZero (e : Engine) : Bool :=
  e.patterns.all (fun p => p.lastIndex == 0) &&
    (dynVals e).all (fun p => p.lastIndex == 0)

/-- The static dictionary `LINGUISTICS`, categories and entries in
source order (JS `Object.entries` iterates string keys in insertion
order). -/
def LINGUISTICS : List (LinguisticCategory × List (String × String)) := [
  (.GEN_Z, [
    ("slay", "excel exceptionally"), ("ate", "nailed it"), ("period", "emphatic agreement"),
    ("periodt", "emphatic agreement"), ("no cap", "honestly"), ("cap", "lie"),
    ("bussin", "extremely good"), ("mid", "mediocre"), ("sus", "suspicious"),
    ("bet", "confirmed"), ("vibe", "atmosphere"), ("vibing", "relaxing"),
    ("lowkey", "secretly"), ("highkey", "obviously"), ("deadass", "seriously"),
    ("fr fr", "legitimately"), ("fr", "legit"), ("ngl", "truthfully"),
    ("iykyk", "insider knowledge"), ("ong", "sworn truth"), ("snatched", "perfect"),
    ("fire", "excellent"), ("lit", "exciting"), ("goat", "greatest"),
    ("goated", "greatest"), ("valid", "acceptable"), ("hits different", "unique impact"),
    ("rent free", "obsessive thought"), ("understood the assignment", "executed perfectly"), ("main character", "protagonist energy"),
    ("npc", "irrelevant person"), ("simp", "sycophant"), ("stan", "superfan"),
    ("ratio", "outperformed"), ("L", "failure"), ("W", "success"),
    ("big W", "major success"), ("big L", "major failure"), ("based", "courageous"),
    ("cringe", "embarrassing"), ("cheugy", "dated"), ("slaps", "excellent"),
    ("banger", "hit"), ("sending me", "hilarious"), ("im dead", "hilarious"),
    ("its giving", "reminiscent of"), ("caught in 4k", "undeniable proof"), ("receipts", "evidence"),
    ("tea", "gossip")
  ]),
  (.AAVE, [
    ("finna", "preparing to"), ("gonna", "going to"), ("tryna", "attempting to"),
    ("boutta", "about to"), ("ion", "I do not"), ("aint", "is not"),
    ("fam", "team"), ("bruh", "friend"), ("sis", "friend"),
    ("cuz", "friend"), ("dawg", "friend"), ("homie", "friend"),
    ("squad", "team"), ("crew", "team"), ("whip", "vehicle"),
    ("crib", "residence"), ("drip", "style"), ("drippin", "stylish"),
    ("swag", "style"), ("fresh", "new"), ("fly", "stylish"),
    ("dope", "excellent"), ("tight", "cool"), ("woke", "aware"),
    ("trippin", "irrational"), ("wildin", "out of control"), ("buggin", "wrong"),
    ("flexin", "boasting"), ("flex", "boast"), ("frontin", "pretending"),
    ("on god", "truthfully"), ("word", "agreed"), ("facts", "correct"),
    ("straight up", "honestly"), ("real talk", "seriously"), ("keep it real", "be authentic"),
    ("keep it 100", "be authentic"), ("fo sho", "certainly"), ("fasho", "certainly"),
    ("aight", "ok"), ("yeet", "discard"), ("salty", "bitter"),
    ("shook", "shocked"), ("pressed", "upset"), ("heated", "angry"),
    ("geeked", "excited"), ("hype", "excited"), ("turnt", "energized"),
    ("bougie", "high-class"), ("ratchet", "unrefined"), ("basic", "generic"),
    ("extra", "dramatic")
  ]),
  (.TECH, [
    ("ship it", "deploy"), ("push to prod", "deploy"), ("yolo deploy", "risky deploy"),
    ("hotfix", "patch"), ("nuke it", "reset"), ("refactor", "restructure"),
    ("spaghetti code", "messy code"), ("tech debt", "maintenance cost"), ("legacy code", "old system"),
    ("greenfield", "new project"), ("brownfield", "existing project"), ("yak shaving", "distraction"),
    ("bikeshedding", "trivial debate"), ("rubber duck", "debug"), ("dogfooding", "internal testing"),
    ("scope creep", "expansion"), ("mvp", "prototype"), ("poc", "proof of concept"),
    ("standup", "daily meeting"), ("retro", "review"), ("sprint", "cycle"),
    ("backlog", "queue"), ("blocker", "impediment"), ("ping", "notify"),
    ("sync", "align"), ("async", "offline"), ("circle back", "revisit"),
    ("deep dive", "investigate"), ("bandwidth", "capacity"), ("runway", "budget"),
    ("north star", "primary goal"), ("low hanging fruit", "easy tasks"), ("moonshot", "ambitious goal"),
    ("10x", "high performance"), ("ninja", "expert"), ("rockstar", "expert"),
    ("unicorn", "rare asset"), ("full stack", "complete system"), ("api", "interface"),
    ("crud", "data operations"), ("microservices", "modular architecture"), ("monolith", "single system"),
    ("spin up", "initialize"), ("scale", "grow"), ("ci cd", "automation"),
    ("devops", "operations")
  ]),
  (.STARTUP, [
    ("disrupt", "transform"), ("pivot", "change strategy"), ("hockey stick", "rapid growth"),
    ("bootstrapped", "self-funded"), ("vc", "investor"), ("series a", "funding round"),
    ("seed", "initial funding"), ("angel", "investor"), ("exit", "acquisition"),
    ("ipo", "public offering"), ("acquisition", "purchase"), ("burn", "spend rate"),
    ("cap table", "ownership"), ("valuation", "worth"), ("moat", "defense"),
    ("product market fit", "viability"), ("pmf", "viability"), ("tam", "market size"),
    ("b2b", "business sales"), ("b2c", "consumer sales"), ("saas", "software service"),
    ("arr", "annual revenue"), ("mrr", "monthly revenue"), ("ltv", "lifetime value"),
    ("cac", "acquisition cost"), ("churn", "attrition"), ("retention", "loyalty"),
    ("viral loop", "growth cycle"), ("growth hack", "strategy"), ("lean", "efficient"),
    ("agile", "flexible"), ("iterate", "improve"), ("fail fast", "learn")
  ]),
  (.DESIGN, [
    ("wireframe", "layout"), ("mockup", "preview"), ("prototype", "demo"),
    ("high fidelity", "detailed"), ("low fidelity", "rough"), ("pixel perfect", "precise"),
    ("responsive", "adaptive"), ("mobile first", "mobile-optimized"), ("above the fold", "visible area"),
    ("hero", "banner"), ("cta", "button"), ("hamburger", "menu icon"),
    ("breadcrumb", "path"), ("carousel", "slider"), ("modal", "overlay"),
    ("toast", "notification"), ("skeleton", "placeholder"), ("lazy load", "deferred loading"),
    ("whitespace", "spacing"), ("visual hierarchy", "structure"), ("user flow", "path"),
    ("happy path", "ideal scenario"), ("edge case", "rare scenario"), ("accessibility", "usability"),
    ("a11y", "usability"), ("hover state", "interaction"), ("loading state", "waiting"),
    ("error state", "failure"), ("empty state", "blank"), ("onboarding", "tutorial"),
    ("tooltip", "hint"), ("dropdown", "menu"), ("debounce", "delay")
  ]),
  (.SOUTHERN, [
    ("yall", "everyone"), ("fixin to", "preparing to"), ("might could", "possibly can"),
    ("over yonder", "there"), ("reckon", "suppose"), ("cattywampus", "askew"),
    ("mash", "press"), ("cut on", "activate"), ("cut off", "deactivate"),
    ("buggy", "cart"), ("coke", "soda"), ("supper", "dinner"),
    ("hankering", "craving"), ("tuckered out", "tired"), ("plumb", "completely"),
    ("right smart", "significant"), ("bless your heart", "sympathy"), ("hold your horses", "wait"),
    ("happy as a clam", "joyful"), ("madder than a wet hen", "furious"), ("slower than molasses", "slow"),
    ("fit to be tied", "angry"), ("come hell or high water", "determined")
  ]),
  (.UK, [
    ("brilliant", "excellent"), ("bloody", "very"), ("blimey", "wow"),
    ("bollocks", "nonsense"), ("rubbish", "garbage"), ("dodgy", "unreliable"),
    ("cheeky", "playful"), ("cheers", "thanks"), ("mate", "friend"),
    ("bloke", "man"), ("lad", "boy"), ("lass", "girl"),
    ("knackered", "tired"), ("gutted", "disappointed"), ("chuffed", "happy"),
    ("gobsmacked", "shocked"), ("miffed", "annoyed"), ("skint", "broke"),
    ("quid", "pound"), ("tenner", "ten pounds"), ("fiver", "five pounds"),
    ("fortnight", "two weeks"), ("queue", "line"), ("loo", "restroom"),
    ("lift", "elevator"), ("flat", "apartment"), ("sorted", "resolved"),
    ("spot on", "accurate")
  ]),
  (.HIPHOP, [
    ("bars", "lyrics"), ("flow", "rhythm"), ("beat", "instrumental"),
    ("drop", "release"), ("bop", "song"), ("goes hard", "intense"),
    ("heat", "quality"), ("certified", "verified"), ("platinum", "successful"),
    ("underground", "indie"), ("collab", "collaboration"), ("feature", "guest"),
    ("remix", "revision"), ("sample", "excerpt"), ("hook", "chorus"),
    ("verse", "stanza"), ("chorus", "refrain"), ("producer", "composer"),
    ("dj", "selector"), ("mc", "lyricist"), ("cypher", "freestyle"),
    ("freestyle", "improv"), ("pen game", "writing"), ("wordplay", "wit"),
    ("punchline", "climax"), ("trap", "genre"), ("drill", "genre"),
    ("boom bap", "genre"), ("lo-fi", "aesthetic")
  ]),
  (.GAMING, [
    ("gg", "good game"), ("ggez", "easy win"), ("wp", "well played"),
    ("glhf", "good luck"), ("nerf", "weaken"), ("buff", "strengthen"),
    ("meta", "strategy"), ("op", "powerful"), ("broken", "unbalanced"),
    ("noob", "beginner"), ("pro", "expert"), ("tryhard", "competitive"),
    ("sweaty", "intense"), ("grind", "work"), ("farm", "gather"),
    ("spawn", "appear"), ("respawn", "reappear"), ("frag", "eliminate"),
    ("clutch", "save"), ("throw", "fail"), ("carry", "support"),
    ("feed", "fail repeatedly"), ("camp", "wait"), ("gank", "ambush"),
    ("tank", "defender"), ("dps", "attacker"), ("healer", "support"),
    ("cooldown", "wait time"), ("ult", "ultimate"), ("combo", "sequence"),
    ("cheese", "exploit"), ("strat", "plan"), ("ping", "latency"),
    ("lag", "delay"), ("fps", "framerate")
  ]),
  (.HISPANIC, [
    ("no mames", "impossible"), ("orale", "ok"), ("andale", "hurry"),
    ("hijole", "wow"), ("chido", "cool"), ("padre", "cool"),
    ("neta", "truth"), ("la neta", "truth"), ("que onda", "hello"),
    ("no manches", "impossible"), ("guey", "friend"), ("ese", "friend"),
    ("vato", "guy"), ("carnal", "brother"), ("compa", "friend"),
    ("firme", "solid"), ("suave", "smooth"), ("loco", "crazy"),
    ("feria", "money"), ("lana", "money"), ("troca", "truck"),
    ("ranfla", "car"), ("jale", "job"), ("chamba", "work"),
    ("pachanga", "party"), ("mija", "dear"), ("mijo", "dear"),
    ("familia", "family")
  ]),
  (.EMOTIONAL, [
    ("shook", "shocked"), ("triggered", "upset"), ("salty", "bitter"),
    ("pressed", "stressed"), ("heated", "angry"), ("gagged", "stunned"),
    ("slayed", "impressed"), ("deceased", "laughing"), ("dead", "laughing"),
    ("obsessed", "fixated"), ("living", "enjoying"), ("thriving", "prospering"),
    ("struggling", "failing"), ("big mood", "relatable"), ("mood", "relatable"),
    ("same", "agreed"), ("felt that", "empathized"), ("i cant", "overwhelmed"),
    ("im weak", "laughing"), ("im done", "finished"), ("over it", "moved on"),
    ("unbothered", "calm"), ("blessed", "grateful"), ("stressed", "anxious"),
    ("hyped", "excited"), ("stoked", "excited")
  ])
]

/-- The flat compiled list built by the constructor before sorting:
every term of every category, in iteration order. -/
def allStaticPatterns : List CompiledPattern :=
  (LINGUISTICS.map fun ct =>
    ct.2.map fun t => (⟨t.1.data, t.2.data, ct.1, 0⟩ : CompiledPattern)).flatten

/-- Insert into a descending-by-term-length sorted list, after all
elements of greater or equal length (stable). -/
def insertDesc (p : CompiledPattern) : List CompiledPattern → List CompiledPattern
  | [] => [p]
  | q :: qs =>
    if q.term.length < p.term.length then p :: q :: qs
    else q :: insertDesc p qs

/-- Stable insertion sort modelling
`allTerms.sort((a, b) => b.term.length - a.term.length)`. -/
def sortDesc (l : List CompiledPattern) : List CompiledPattern :=
  l.foldl (fun acc p => insertDesc p acc) []

/-- Models `export const engine = new LinguisticsEngine()`: the static
patterns compiled and sorted, the dynamic store empty. -/
def engine : Engine := ⟨sortDesc allStaticPatterns, []⟩

/-! ### Orderings and the empty-input evaluation -/

/-- The constructor's ordering: earlier patterns have terms at least
as long as later ones. -/
def longerFirst (a b : CompiledPattern) : Prop := b.term.length ≤ a.term.length

/-- The same ordering on result entries. -/
def entryLongerFirst (a b : LinguisticTerm) : Prop := b.term.length ≤ a.term.length

instance : DecidableRel longerFirst :=
  fun a b => inferInstanceAs (Decidable (b.term.length ≤ a.term.length))

instance : DecidableRel entryLongerFirst :=
  fun a b => inferInstanceAs (Decidable (b.term.length ≤ a.term.length))

/-- Following the spec's wording, the reference matcher a compiled
pattern's matcher is claimed to realise: the term occurs (compared
case-insensitively) bounded by a non-word character or the string
start/end on both sides. -/
def specBoundedOccurrence (term t : Str) : Bool :=
  (List.range (t.length + 1)).any fun i =>
    occursAt term t i &&
    (decide (i = 0) || !isWordChar (t.getD (i - 1) ' ')) &&
    (decide (i + term.length = t.length) || !isWordChar (t.getD (i + term.length) ' '))

/-- The term is non-empty and starts and ends with word characters
(as every static dictionary term does). -/
def wordBoundedTerm (term : Str) : Bool :=
  !term.isEmpty && isWordChar (term.getD 0 ' ') &&
    isWordChar (term.getD (term.length - 1) ' ')

theorem translateS_nil (e : Engine) :
    translateS e [] =
      ({ original := [], terms := [], confidence := 1, translatedText := [] }, e) :=
  rfl

/-! ### Helper lemmas about the matching loop -/

theorem testS_snd_of_false {term t : Str} {li : Nat}
    (h : (testS term t li).1 = false) : (testS term t li).2 = 0 := by
  have hn : firstMatchFrom term t li = none := by
    cases hm : firstMatchFrom term t li with
    | none => rfl
    | some i => unfold testS at h; rw [hm] at h; simp at h
  unfold testS; rw [hn]

/-- Structure of one pass of the matching loop: some sublist `qs` of
the tested patterns is pushed, entries and keys in lockstep, and every
pattern's `lastIndex` comes back `0`. -/
theorem runPats_out (input : Str) :
    ∀ (ps : List CompiledPattern) (f : List LinguisticTerm) (ks : List Str),
    ∃ qs : List CompiledPattern, qs.Sublist ps ∧
      (runPats input ps (f, ks)).1.1 = f ++ qs.map entryOf ∧
      (runPats input ps (f, ks)).1.2 = ks ++ qs.map patKey ∧
      (runPats input ps (f, ks)).2 = ps.map fun p => { p with lastIndex := 0 } := by
  intro ps
  induction ps with
  | nil => intro f ks; exact ⟨[], List.nil_sublist _, by simp [runPats]⟩
  | cons p ps ih =>
    intro f ks
    cases h1 : (testS p.term input p.lastIndex).1 with
    | true =>
      by_cases h2 : patKey p ∈ ks
      · obtain ⟨qs, hsub, hf, hk, hp⟩ := ih f ks
        exact ⟨qs, hsub.cons _, by simp [runPats, stepPat, h1, h2, hf, hk, hp]⟩
      · obtain ⟨qs, hsub, hf, hk, hp⟩ := ih (f ++ [entryOf p]) (ks ++ [patKey p])
        exact ⟨p :: qs, hsub.cons₂ _, by simp [runPats, stepPat, h1, h2, hf, hk, hp]⟩
    | false =>
      obtain ⟨qs, hsub, hf, hk, hp⟩ := ih f ks
      exact ⟨qs, hsub.cons _,
        by simp [runPats, stepPat, h1, testS_snd_of_false h1, hf, hk, hp]⟩

/-- The dedup guard keeps the key list duplicate-free. -/
theorem runPats_keys_nodup (input : Str) :
    ∀ (ps : List CompiledPattern) (f : List LinguisticTerm) (ks : List Str),
    ks.Nodup → ((runPats input ps (f, ks)).1.2).Nodup := by
  intro ps
  induction ps with
  | nil => intro f ks h; simpa [runPats] using h
  | cons p ps ih =>
    intro f ks h
    cases h1 : (testS p.term input p.lastIndex).1 with
    | true =>
      by_cases h2 : patKey p ∈ ks
      · simpa [runPats, stepPat, h1, h2] using ih f ks h
      · have : (ks ++ [patKey p]).Nodup := by
          simp [List.nodup_append, h, h2]
        simpa [runPats, stepPat, h1, h2] using
          ih (f ++ [entryOf p]) (ks ++ [patKey p]) this
    | false =>
      simpa [runPats, stepPat, h1] using ih f ks h

theorem entryKey_entryOf (p : CompiledPattern) :
    entryKey (entryOf p) = patKey p := rfl

/-- Keys stay the `entryKey` image of the found list. -/
theorem runPats_lockstep (input : Str) (ps : List CompiledPattern)
    (f : List LinguisticTerm) (ks : List Str) (h : ks = f.map entryKey) :
    (runPats input ps (f, ks)).1.2 = ((runPats input ps (f, ks)).1.1).map entryKey := by
  subst h
  obtain ⟨qs, _, hf, hk, _⟩ := runPats_out input ps f (f.map entryKey)
  rw [hf, hk]
  simp [List.map_append, List.map_map]
  intro a _
  rfl

/-- Keys already recorded stay recorded. -/
theorem runPats_keys_mono (input : Str) (ps : List CompiledPattern)
    (f : List LinguisticTerm) (ks : List Str) (k : Str) (h : k ∈ ks) :
    k ∈ (runPats input ps (f, ks)).1.2 := by
  obtain ⟨qs, _, _, hk, _⟩ := runPats_out input ps f ks
  simp [hk, h]

/-- A matched pattern's key always ends up recorded. -/
theorem runPats_key_mem (input : Str) :
    ∀ (ps : List CompiledPattern) (f : List LinguisticTerm) (ks : List Str)
      (p : CompiledPattern), p ∈ ps →
      (testS p.term input p.lastIndex).1 = true →
      patKey p ∈ (runPats input ps (f, ks)).1.2 := by
  intro ps
  induction ps with
  | nil => intro f ks p h; simp at h
  | cons q ps ih =>
    intro f ks p hmem ht
    rcases List.mem_cons.1 hmem with rfl | hmem
    · by_cases h2 : patKey p ∈ ks
      · have := runPats_keys_mono input ps
          ((stepPat input (f, ks) p).1).1 ((stepPat input (f, ks) p).1).2 (patKey p)
          (by simp [stepPat, ht, h2])
        simpa [runPats] using this
      · have := runPats_keys_mono input ps
          ((stepPat input (f, ks) p).1).1 ((stepPat input (f, ks) p).1).2 (patKey p)
          (by simp [stepPat, ht, h2])
        simpa [runPats] using this
    · have := ih ((stepPat input (f, ks) q).1).1 ((stepPat input (f, ks) q).1).2 p hmem ht
      simpa [runPats] using this

/-! ### Injectivity of the dedup key `term + ":" + category` -/

theorem colon_append_inj :
    ∀ (a b u v : Str), ':' ∉ u → ':' ∉ v →
      a ++ ':' :: u = b ++ ':' :: v → a = b ∧ u = v := by
  intro a
  induction a with
  | nil =>
    intro b u v hu hv h
    cases b with
    | nil => simpa using h
    | cons d b =>
      simp at h
      obtain ⟨rfl, rfl⟩ := h
      exact absurd (List.mem_append_right b (List.mem_cons_self _ _)) hu
  | cons c a ih =>
    intro b u v hu hv h
    cases b with
    | nil =>
      simp at h
      obtain ⟨rfl, rfl⟩ := h
      exact absurd (List.mem_append_right a (List.mem_cons_self _ _)) hv
    | cons d b =>
      simp at h
      obtain ⟨rfl, h⟩ := h
      obtain ⟨h1, h2⟩ := ih b u v hu hv h
      simp [h1, h2]

theorem catName_no_colon : ∀ c : LinguisticCategory, ':' ∉ catName c := by
  intro c; cases c <;> decide

theorem catName_inj : ∀ c₁ c₂ : LinguisticCategory,
    catName c₁ = catName c₂ → c₁ = c₂ := by
  intro c₁ c₂; cases c₁ <;> cases c₂ <;> decide

theorem entryKey_eq_entryKey {x y : LinguisticTerm}
    (h : entryKey x = entryKey y) : x.term = y.term ∧ x.category = y.category := by
  obtain ⟨h1, h2⟩ := colon_append_inj x.term y.term (catName x.category)
    (catName y.category) (catName_no_colon _) (catName_no_colon _) h
  exact ⟨h1, catName_inj _ _ h2⟩

theorem entryKey_eq_patKey {x : LinguisticTerm} {p : CompiledPattern}
    (h : entryKey x = patKey p) : x.term = p.term ∧ x.category = p.category :=
  entryKey_eq_entryKey (x := x) (y := entryOf p) h

/-! ### Structure of a `translate` call -/

theorem isEmpty_false_of_ne {s : Str} (h : s ≠ []) : s.isEmpty = false := by
  cases s with
  | nil => exact absurd rfl h
  | cons c cs => rfl

/-- The found list of a non-empty call: a sublist of the static
patterns (entries in pattern order) followed by a sublist of the
dynamic values. -/
theorem translateS_terms (e : Engine) (s : Str) (hs : s ≠ []) :
    ∃ qs₁ qs₂ : List CompiledPattern, qs₁.Sublist e.patterns ∧
      qs₂.Sublist (dynVals e) ∧
      (translateS e s).1.terms = qs₁.map entryOf ++ qs₂.map entryOf := by
  obtain ⟨qs₁, hsub₁, hf₁, hk₁, _⟩ := runPats_out s e.patterns [] []
  obtain ⟨qs₂, hsub₂, hf₂, _, _⟩ := runPats_out s (dynVals e)
    ((runPats s e.patterns ([], [])).1.1) ((runPats s e.patterns ([], [])).1.2)
  refine ⟨qs₁, qs₂, hsub₁, hsub₂, ?_⟩
  simp only [translateS, isEmpty_false_of_ne hs, Bool.false_eq_true, if_false]
  rw [show (runPats s (dynVals e) (runPats s e.patterns ([], [])).1).1.1 =
      (runPats s (dynVals e)
        ((runPats s e.patterns ([], [])).1.1, (runPats s e.patterns ([], [])).1.2)).1.1
    from rfl] at *
  rw [hf₂, hf₁]
  simp

/-! ### The descending-length sort -/

theorem mem_insertDesc {x p : CompiledPattern} :
    ∀ {l : List CompiledPattern}, x ∈ insertDesc p l ↔ x = p ∨ x ∈ l := by
  intro l
  induction l with
  | nil => simp [insertDesc]
  | cons q qs ih =>
    by_cases h : q.term.length < p.term.length
    · simp [insertDesc, h]
    · simp [insertDesc, h, ih]
      tauto

theorem pairwise_insertDesc {p : CompiledPattern} :
    ∀ {l : List CompiledPattern}, l.Pairwise longerFirst →
      (insertDesc p l).Pairwise longerFirst := by
  intro l
  induction l with
  | nil => intro _; simp [insertDesc, List.pairwise_cons, longerFirst]
  | cons q qs ih =>
    intro h
    rw [List.pairwise_cons] at h
    obtain ⟨hq, hqs⟩ := h
    by_cases hlt : q.term.length < p.term.length
    · simp only [insertDesc, if_pos hlt]
      rw [List.pairwise_cons]
      constructor
      · intro b hb
        rcases List.mem_cons.1 hb with rfl | hb
        · exact le_of_lt hlt
        · exact le_trans (hq b hb) (le_of_lt hlt)
      · rw [List.pairwise_cons]
        exact ⟨hq, hqs⟩
    · simp only [insertDesc, if_neg hlt]
      rw [List.pairwise_cons]
      constructor
      · intro b hb
        rcases mem_insertDesc.1 hb with rfl | hb
        · exact le_of_not_lt hlt
        · exact hq b hb
      · exact ih hqs

theorem sortDesc_pairwise (l : List CompiledPattern) :
    (sortDesc l).Pairwise longerFirst := by
  have aux : ∀ (m : List CompiledPattern) (acc : List CompiledPattern),
      acc.Pairwise longerFirst →
      (m.foldl (fun acc p => insertDesc p acc) acc).Pairwise longerFirst := by
    intro m
    induction m with
    | nil => intro acc h; exact h
    | cons p ps ih => intro acc h; exact ih _ (pairwise_insertDesc h)
  exact aux l [] (List.Pairwise.nil)

/-! ### Regex state restoration -/

theorem withZero_eq_self {p : CompiledPattern} (h : p.lastIndex = 0) :
    ({ p with lastIndex := 0 } : CompiledPattern) = p := by
  cases p
  simp_all

theorem map_withZero_eq_self :
    ∀ (ps : List CompiledPattern), (∀ p ∈ ps, p.lastIndex = 0) →
      (ps.map fun p => { p with lastIndex := 0 }) = ps := by
  intro ps
  induction ps with
  | nil => intro _; rfl
  | cons p ps ih =>
    intro h
    simp only [List.map_cons]
    rw [withZero_eq_self (h p (List.mem_cons_self _ _)),
      ih fun q hq => h q (List.mem_cons_of_mem _ hq)]

theorem zip_fst_dyn_eq_self :
    ∀ (m : List (List Nat × CompiledPattern)),
      (m.map Prod.fst).zip (m.map Prod.snd) = m := by
  intro m
  induction m with
  | nil => rfl
  | cons kv m ih => simp [List.zip_cons_cons, ih]

/-- After a `translate` call from all-zero regex state, the engine
state is bit-for-bit what it was: every `lastIndex` is written back to
`0` (explicitly on success, by `test` itself on failure). -/
theorem translateS_state (e : Engine) (s : Str) (h : allZero e = true) :
    (translateS e s).2 = e := by
  rw [allZero, Bool.and_eq_true, List.all_eq_true, List.all_eq_true] at h
  obtain ⟨h1, h2⟩ := h
  by_cases hs : s = []
  · subst hs; rfl
  · obtain ⟨_, _, _, _, hp1⟩ := runPats_out s e.patterns [] []
    obtain ⟨_, _, _, _, hp2⟩ := runPats_out s (dynVals e)
      ((runPats s e.patterns ([], [])).1.1) ((runPats s e.patterns ([], [])).1.2)
    have e1 : (runPats s e.patterns ([], [])).2 = e.patterns := by
      rw [hp1]
      exact map_withZero_eq_self _ fun p hp => by simpa using h1 p hp
    have e2 : (runPats s (dynVals e) (runPats s e.patterns ([], [])).1).2 = dynVals e := by
      rw [show runPats s (dynVals e) (runPats s e.patterns ([], [])).1 =
          runPats s (dynVals e) ((runPats s e.patterns ([], [])).1.1,
            (runPats s e.patterns ([], [])).1.2) from rfl, hp2]
      exact map_withZero_eq_self _ fun p hp => by simpa using h2 p hp
    simp only [translateS, isEmpty_false_of_ne hs, Bool.false_eq_true, if_false]
    rw [e1, e2, show dynVals e = e.dynamicPatterns.map Prod.snd from rfl,
      zip_fst_dyn_eq_self]

/-! ### Claim theorems -/

/-- Claim C9: `translate` is deterministic and idempotent: from the
all-zero regex state the engine constructs and always restores, a call
returns the engine state unchanged, so a second call on the same input
is the structurally identical computation with the structurally
identical result. -/
theorem translate_deterministic_idempotent (e : Engine) (s : Str)
    (h : allZero e = true) :
    (translateS e s).2 = e ∧
      translateS ((translateS e s).2) s = translateS e s := by
  refine ⟨translateS_state e s h, ?_⟩
  rw [translateS_state e s h]

theorem translate_deterministic_idempotent_witness :
    (translateS ⟨[⟨"cap".data, "lie".data, .GEN_Z, 0⟩], []⟩ ("cap".data)).2 =
        ⟨[⟨"cap".data, "lie".data, .GEN_Z, 0⟩], []⟩ ∧
      translateS ((translateS ⟨[⟨"cap".data, "lie".data, .GEN_Z, 0⟩], []⟩
          ("cap".data)).2) ("cap".data) =
        translateS ⟨[⟨"cap".data, "lie".data, .GEN_Z, 0⟩], []⟩ ("cap".data) :=
  translate_deterministic_idempotent _ _ (by decide)

/-- Claim C4: pass-through: for every engine state and every input,
`translatedText` and `original` both equal the input verbatim,
including in the empty-input branch (which sets `original` to the
empty string, equal to the empty input). -/
theorem translate_pass_through (e : Engine) (s : Str) :
    (translateS e s).1.translatedText = s ∧ (translateS e s).1.original = s := by
  by_cases hs : s = []
  · subst hs; exact ⟨rfl, rfl⟩
  · simp [translateS, isEmpty_false_of_ne hs]

/-- Claim C7: empty input returns immediately — for every engine state,
without testing any pattern — with
`{ original: "", terms: [], confidence: 1, translatedText: "" }`. -/
theorem translate_empty_input (e : Engine) :
    translateS e [] =
      ({ original := [], terms := [], confidence := 1, translatedText := [] }, e) :=
  rfl

theorem translateS_confidence_formula (e : Engine) (s : Str) (hs : s ≠ []) :
    (translateS e s).1.confidence =
      min 1 (7/10 + ((translateS e s).1.terms.length : ℚ) * (1/20)) := by
  simp only [translateS, isEmpty_false_of_ne hs, Bool.false_eq_true, if_false]

/-- Claim C5, amended: on every non-empty input the confidence is
exactly `min(1, 0.7 + 0.05 * n)` for `n` the number of recorded
(term, category) pairs; on every input it lies in `[0.7, 1]`, reaches
exactly `1` whenever `n ≥ 6`, and is monotone in `n` across non-empty
calls.  (The empty-input branch returns `1`, not the formula value
`0.7` — see the counterexample.) -/
theorem confidence_contract :
    (∀ (e : Engine) (s : Str), s ≠ [] →
      (translateS e s).1.confidence =
        min 1 (7/10 + ((translateS e s).1.terms.length : ℚ) * (1/20))) ∧
    (∀ (e : Engine) (s : Str),
      7/10 ≤ (translateS e s).1.confidence ∧ (translateS e s).1.confidence ≤ 1) ∧
    (∀ (e : Engine) (s : Str), 6 ≤ (translateS e s).1.terms.length →
      (translateS e s).1.confidence = 1) ∧
    (∀ (e₁ e₂ : Engine) (s₁ s₂ : Str), s₁ ≠ [] → s₂ ≠ [] →
      (translateS e₁ s₁).1.terms.length ≤ (translateS e₂ s₂).1.terms.length →
      (translateS e₁ s₁).1.confidence ≤ (translateS e₂ s₂).1.confidence) := by
  have hform := translateS_confidence_formula
  refine ⟨hform, ?_, ?_, ?_⟩
  · intro e s
    by_cases hs : s = []
    · subst hs
      constructor <;> norm_num [translateS_nil]
    · rw [hform e s hs]
      constructor
      · refine le_min (by norm_num) ?_
        have : (0 : ℚ) ≤ ((translateS e s).1.terms.length : ℚ) * (1/20) := by
          positivity
        linarith
      · exact min_le_left _ _
  · intro e s hn
    by_cases hs : s = []
    · subst hs
      rw [translateS_nil] at hn
      simp at hn
    · rw [hform e s hs]
      have hc : (6 : ℚ) ≤ ((translateS e s).1.terms.length : ℚ) := by
        exact_mod_cast hn
      have : (1 : ℚ) ≤ 7/10 + ((translateS e s).1.terms.length : ℚ) * (1/20) := by
        nlinarith
      exact min_eq_left this
  · intro e₁ e₂ s₁ s₂ h₁ h₂ hle
    rw [hform e₁ s₁ h₁, hform e₂ s₂ h₂]
    have hc : ((translateS e₁ s₁).1.terms.length : ℚ) ≤
        ((translateS e₂ s₂).1.terms.length : ℚ) := by exact_mod_cast hle
    have : (7:ℚ)/10 + ((translateS e₁ s₁).1.terms.length : ℚ) * (1/20) ≤
        7/10 + ((translateS e₂ s₂).1.terms.length : ℚ) * (1/20) := by nlinarith
    exact min_le_min le_rfl this

theorem confidence_contract_witness :
    (translateS ⟨[], []⟩ ("hi".data)).1.confidence =
        min 1 (7/10 + (((translateS ⟨[], []⟩ ("hi".data)).1.terms.length : ℕ) : ℚ) * (1/20)) ∧
      (translateS ⟨[], []⟩ ("hi".data)).1.confidence ≤
        (translateS ⟨[], []⟩ ("ok hi".data)).1.confidence :=
  ⟨confidence_contract.1 _ _ (by decide),
    confidence_contract.2.2.2 _ _ _ _ (by decide) (by decide) (by decide)⟩

/-- Claim C5, counterexample: at the concrete input `""` the engine
returns confidence `1`, but the claimed formula (with `n = 0` matched
pairs) gives `min(1, 0.7) = 0.7`: the claim's universal quantification
over inputs is false on the empty input. -/
theorem confidence_formula_counterexample :
    (translateS engine ([] : Str)).1.confidence ≠
      min 1 (7/10 + (((translateS engine ([] : Str)).1.terms.length : ℕ) : ℚ) * (1/20)) := by
  rw [translateS_nil]
  norm_num [min_def]

/-- Claim C2: the static compiled-pattern list is sorted by descending
term length at construction; no operation changes it (registration and
bulk load leave it untouched, a `translate` call restores it ordered);
and in every `translate` result the entries split as
static-pass entries followed by dynamic-pass entries, the static part
provably in descending term length. -/
theorem static_sorted_ordering :
    engine.patterns.Pairwise longerFirst ∧
    (∀ (e : Engine) (t m : Str) (c : LinguisticCategory),
      (addDynamicTerm e t m c).patterns = e.patterns) ∧
    (∀ (e : Engine) (l : List (Str × Str × LinguisticCategory)),
      (loadDynamicTerms e l).patterns = e.patterns) ∧
    (∀ (e : Engine) (s : Str), e.patterns.Pairwise longerFirst →
      ((translateS e s).2).patterns.Pairwise longerFirst) ∧
    (∀ (e : Engine) (s : Str), e.patterns.Pairwise longerFirst →
      ∃ S D : List LinguisticTerm, (translateS e s).1.terms = S ++ D ∧
        (∀ x ∈ S, ∃ p ∈ e.patterns, x = entryOf p) ∧
        (∀ y ∈ D, ∃ q ∈ dynVals e, y = entryOf q) ∧
        S.Pairwise entryLongerFirst) := by
  have hload : ∀ (e : Engine) (l : List (Str × Str × LinguisticCategory)),
      (loadDynamicTerms e l).patterns = e.patterns := by
    intro e l
    induction l generalizing e with
    | nil => rfl
    | cons x l ih => exact ih (addDynamicTerm e x.1 x.2.1 x.2.2)
  refine ⟨sortDesc_pairwise _, fun _ _ _ _ => rfl, hload, ?_, ?_⟩
  · intro e s h
    by_cases hs : s = []
    · subst hs; exact h
    · obtain ⟨_, _, _, _, hp1⟩ := runPats_out s e.patterns [] []
      simp only [translateS, isEmpty_false_of_ne hs, Bool.false_eq_true, if_false]
      rw [hp1, List.pairwise_map]
      exact h
  · intro e s h
    by_cases hs : s = []
    · subst hs
      exact ⟨[], [], by simp [translateS_nil], by simp, by simp,
        List.Pairwise.nil⟩
    · obtain ⟨qs₁, qs₂, hsub₁, hsub₂, hterms⟩ := translateS_terms e s hs
      refine ⟨qs₁.map entryOf, qs₂.map entryOf, hterms, ?_, ?_, ?_⟩
      · intro x hx
        obtain ⟨p, hp, rfl⟩ := List.mem_map.1 hx
        exact ⟨p, hsub₁.subset hp, rfl⟩
      · intro y hy
        obtain ⟨q, hq, rfl⟩ := List.mem_map.1 hy
        exact ⟨q, hsub₂.subset hq, rfl⟩
      · rw [List.pairwise_map]
        exact (h.sublist hsub₁ : qs₁.Pairwise longerFirst)

theorem static_sorted_ordering_witness :
    (((translateS ⟨[⟨"no cap".data, "honestly".data, .GEN_Z, 0⟩,
        ⟨"cap".data, "lie".data, .GEN_Z, 0⟩], []⟩ ("no cap".data)).2).patterns.Pairwise
        longerFirst) ∧
    (∃ S D : List LinguisticTerm,
      (translateS ⟨[⟨"no cap".data, "honestly".data, .GEN_Z, 0⟩,
        ⟨"cap".data, "lie".data, .GEN_Z, 0⟩], []⟩ ("no cap".data)).1.terms = S ++ D ∧
      (∀ x ∈ S, ∃ p ∈ (⟨[⟨"no cap".data, "honestly".data, .GEN_Z, 0⟩,
        ⟨"cap".data, "lie".data, .GEN_Z, 0⟩], []⟩ : Engine).patterns, x = entryOf p) ∧
      (∀ y ∈ D, ∃ q ∈ dynVals ⟨[⟨"no cap".data, "honestly".data, .GEN_Z, 0⟩,
        ⟨"cap".data, "lie".data, .GEN_Z, 0⟩], []⟩, y = entryOf q) ∧
      S.Pairwise entryLongerFirst) :=
  ⟨static_sorted_ordering.2.2.2.1 _ _ (by decide),
    static_sorted_ordering.2.2.2.2 _ _ (by decide)⟩

/-- Any key recorded by the full two-pass loop belongs to some entry
of the final result. -/
theorem entry_of_key_mem (e : Engine) (s : Str) (hs : s ≠ []) (k : Str)
    (hk : k ∈ (runPats s (dynVals e)
      ((runPats s e.patterns ([], [])).1.1,
        (runPats s e.patterns ([], [])).1.2)).1.2) :
    ∃ x ∈ (translateS e s).1.terms, entryKey x = k := by
  have hlock1 := runPats_lockstep s e.patterns [] [] (by simp)
  have hlock2 := runPats_lockstep s (dynVals e)
    ((runPats s e.patterns ([], [])).1.1)
    ((runPats s e.patterns ([], [])).1.2) hlock1
  rw [hlock2] at hk
  obtain ⟨x, hx, rfl⟩ := List.mem_map.1 hk
  refine ⟨x, ?_, rfl⟩
  simp only [translateS, isEmpty_false_of_ne hs, Bool.false_eq_true, if_false]
  exact hx

/-- A matched static pattern (tested from `lastIndex = 0`) always
leaves an entry with its term and category in the result. -/
theorem matched_static_entry (e : Engine) (s : Str) (hs : s ≠ [])
    {p : CompiledPattern} (hp : p ∈ e.patterns) (hz : p.lastIndex = 0)
    (ht : regexTest p.term s = true) :
    ∃ x ∈ (translateS e s).1.terms, x.term = p.term ∧ x.category = p.category := by
  have htS : (testS p.term s p.lastIndex).1 = true := by rw [hz]; exact ht
  have h1 : patKey p ∈ (runPats s e.patterns ([], [])).1.2 :=
    runPats_key_mem s e.patterns [] [] p hp htS
  have h2 := runPats_keys_mono s (dynVals e)
    ((runPats s e.patterns ([], [])).1.1)
    ((runPats s e.patterns ([], [])).1.2) (patKey p) h1
  obtain ⟨x, hx, hk⟩ := entry_of_key_mem e s hs _ h2
  exact ⟨x, hx, entryKey_eq_patKey hk⟩

/-- A matched dynamic pattern (tested from `lastIndex = 0`) always
leaves an entry with its term and category in the result. -/
theorem matched_dynamic_entry (e : Engine) (s : Str) (hs : s ≠ [])
    {q : CompiledPattern} (hq : q ∈ dynVals e) (hz : q.lastIndex = 0)
    (ht : regexTest q.term s = true) :
    ∃ y ∈ (translateS e s).1.terms, y.term = q.term ∧ y.category = q.category := by
  have htS : (testS q.term s q.lastIndex).1 = true := by rw [hz]; exact ht
  have h2 := runPats_key_mem s (dynVals e)
    ((runPats s e.patterns ([], [])).1.1)
    ((runPats s e.patterns ([], [])).1.2) q hq htS
  obtain ⟨y, hy, hk⟩ := entry_of_key_mem e s hs _ h2
  exact ⟨y, hy, entryKey_eq_patKey hk⟩

/-- Claim C3: no two entries of any `translate` result share term and
category (the `term + ":" + category` dedup), and on the shipped
engine `translate("cap cap cap")` records the GEN_Z entry for `"cap"`
exactly once. -/
theorem translate_no_duplicate_pairs :
    (∀ (e : Engine) (s : Str),
      ((translateS e s).1.terms).Pairwise
        fun a b => ¬(a.term = b.term ∧ a.category = b.category)) ∧
    (translateS engine ("cap cap cap".data)).1.terms =
      [⟨"cap".data, "lie".data, .GEN_Z⟩] := by
  constructor
  · intro e s
    by_cases hs : s = []
    · subst hs
      rw [translateS_nil]
      exact List.Pairwise.nil
    · have hn1 := runPats_keys_nodup s e.patterns [] [] List.nodup_nil
      have hn2 := runPats_keys_nodup s (dynVals e)
        ((runPats s e.patterns ([], [])).1.1)
        ((runPats s e.patterns ([], [])).1.2) hn1
      have hlock1 := runPats_lockstep s e.patterns [] [] (by simp)
      have hlock2 := runPats_lockstep s (dynVals e)
        ((runPats s e.patterns ([], [])).1.1)
        ((runPats s e.patterns ([], [])).1.2) hlock1
      rw [hlock2] at hn2
      have himp : ∀ {a b : LinguisticTerm}, entryKey a ≠ entryKey b →
          ¬(a.term = b.term ∧ a.category = b.category) := by
        intro a b hne hab
        exact hne (by unfold entryKey; rw [hab.1, hab.2])
      have hpw := (List.pairwise_map.1 hn2).imp himp
      simp only [translateS, isEmpty_false_of_ne hs, Bool.false_eq_true, if_false]
      exact hpw
  · decide

/-- Every result entry is the verbatim stored data of some compiled
pattern, static or dynamic (canonical casing, meaning, category). -/
theorem translate_entry_provenance (e : Engine) (s : Str) (x : LinguisticTerm)
    (hx : x ∈ (translateS e s).1.terms) :
    ∃ p : CompiledPattern, (p ∈ e.patterns ∨ p ∈ dynVals e) ∧ x = entryOf p := by
  by_cases hs : s = []
  · rw [hs, translateS_nil] at hx
    simp at hx
  · obtain ⟨qs₁, qs₂, hsub₁, hsub₂, hterms⟩ := translateS_terms e s hs
    rw [hterms] at hx
    rcases List.mem_append.1 hx with h | h
    · obtain ⟨r, hr, hrx⟩ := List.mem_map.1 h
      exact ⟨r, Or.inl (hsub₁.subset hr), hrx.symm⟩
    · obtain ⟨r, hr, hrx⟩ := List.mem_map.1 h
      exact ⟨r, Or.inr (hsub₂.subset hr), hrx.symm⟩

/-- If some entry carries `p`'s term and category and no pattern with
that term and category stores a different meaning, the entry is
exactly `entryOf p`. -/
theorem matched_entry_exact (e : Engine) (s : Str)
    {p : CompiledPattern}
    (hmem : ∃ x ∈ (translateS e s).1.terms, x.term = p.term ∧ x.category = p.category)
    (huniq : ∀ r ∈ e.patterns ++ dynVals e, r.term = p.term →
      r.category = p.category → r.meaning = p.meaning) :
    entryOf p ∈ (translateS e s).1.terms := by
  obtain ⟨x, hx, hterm, hcat⟩ := hmem
  obtain ⟨r, hrmem, rfl⟩ := translate_entry_provenance e s x hx
  simp only [entryOf] at hterm hcat
  have hm : r.meaning = p.meaning :=
    huniq r (List.mem_append.2 hrmem) hterm hcat
  have heq : entryOf r = entryOf p := by
    simp only [entryOf, hterm, hcat, hm]
  rw [← heq]
  exact hx

/-- Claim C6: a surface term listed under two distinct categories yields
one entry per (term, category) pair, each with that pattern's own
meaning — matches are never collapsed across categories; and the
shipped dictionary indeed lists such terms, e.g. `"shook"` under both
AAVE and EMOTIONAL, and `"pressed"` under AAVE (`"upset"`) and
EMOTIONAL (`"stressed"`) with different meanings. -/
theorem cross_category_surfaced :
    (∀ (e : Engine) (s : Str) (p q : CompiledPattern),
      p ∈ e.patterns → q ∈ e.patterns → p.lastIndex = 0 → q.lastIndex = 0 →
      regexTest p.term s = true → regexTest q.term s = true →
      p.category ≠ q.category → s ≠ [] →
      (∀ r ∈ e.patterns ++ dynVals e, r.term = p.term →
        r.category = p.category → r.meaning = p.meaning) →
      (∀ r ∈ e.patterns ++ dynVals e, r.term = q.term →
        r.category = q.category → r.meaning = q.meaning) →
      entryOf p ∈ (translateS e s).1.terms ∧
        entryOf q ∈ (translateS e s).1.terms) ∧
    (LINGUISTICS.any fun ct => decide (ct.1 = .AAVE) &&
      decide (("shook", "shocked") ∈ ct.2)) = true ∧
    (LINGUISTICS.any fun ct => decide (ct.1 = .EMOTIONAL) &&
      decide (("shook", "shocked") ∈ ct.2)) = true ∧
    (LINGUISTICS.any fun ct => decide (ct.1 = .AAVE) &&
      decide (("pressed", "upset") ∈ ct.2)) = true ∧
    (LINGUISTICS.any fun ct => decide (ct.1 = .EMOTIONAL) &&
      decide (("pressed", "stressed") ∈ ct.2)) = true := by
  refine ⟨?_, by decide, by decide, by decide, by decide⟩
  intro e s p q hp hq hzp hzq htp htq _ hs hup huq
  exact ⟨matched_entry_exact e s (matched_static_entry e s hs hp hzp htp) hup,
    matched_entry_exact e s (matched_static_entry e s hs hq hzq htq) huq⟩

theorem cross_category_surfaced_witness :
    entryOf ⟨"pressed".data, "upset".data, .AAVE, 0⟩ ∈
      (translateS ⟨[⟨"pressed".data, "upset".data, .AAVE, 0⟩,
        ⟨"pressed".data, "stressed".data, .EMOTIONAL, 0⟩], []⟩
        ("so pressed".data)).1.terms ∧
    entryOf ⟨"pressed".data, "stressed".data, .EMOTIONAL, 0⟩ ∈
      (translateS ⟨[⟨"pressed".data, "upset".data, .AAVE, 0⟩,
        ⟨"pressed".data, "stressed".data, .EMOTIONAL, 0⟩], []⟩
        ("so pressed".data)).1.terms :=
  cross_category_surfaced.1 _ _ _ _ (by decide) (by decide) rfl rfl
    (by decide) (by decide) (by decide) (by decide) (by decide) (by decide)

theorem patKey_eq_patKey {r q : CompiledPattern} (h : patKey r = patKey q) :
    r.term = q.term ∧ r.category = q.category :=
  entryKey_eq_entryKey (x := entryOf r) (y := entryOf q) h

/-- Claim C10: the dedup key compares the canonical stored strings
exactly and case-sensitively: a dynamic pattern whose stored casing or
category differs from every static pattern's contributes its own entry
after the static entries (static first), and a matched dynamic pattern
is only ever suppressed in favour of an entry carrying exactly its
term and category. -/
theorem dynamic_dedup_exact_key :
    (∀ (e : Engine) (s : Str) (p q : CompiledPattern),
      p ∈ e.patterns → q ∈ dynVals e → p.lastIndex = 0 → q.lastIndex = 0 →
      regexTest p.term s = true → regexTest q.term s = true → s ≠ [] →
      (∀ r ∈ e.patterns, ¬(r.term = q.term ∧ r.category = q.category)) →
      ∃ S D : List LinguisticTerm, (translateS e s).1.terms = S ++ D ∧
        (∃ x ∈ S, x.term = p.term ∧ x.category = p.category) ∧
        (∃ y ∈ D, y.term = q.term ∧ y.category = q.category)) ∧
    (∀ (e : Engine) (s : Str) (q : CompiledPattern),
      q ∈ dynVals e → q.lastIndex = 0 → regexTest q.term s = true → s ≠ [] →
      ∃ y ∈ (translateS e s).1.terms,
        y.term = q.term ∧ y.category = q.category) := by
  constructor
  · intro e s p q hp hq hzp hzq htp htq hs hnostatic
    obtain ⟨qs₁, hsub₁, hf₁, hk₁, _⟩ := runPats_out s e.patterns [] []
    obtain ⟨qs₂, hsub₂, hf₂, hk₂, _⟩ := runPats_out s (dynVals e)
      ((runPats s e.patterns ([], [])).1.1) ((runPats s e.patterns ([], [])).1.2)
    have htpS : (testS p.term s p.lastIndex).1 = true := by rw [hzp]; exact htp
    have htqS : (testS q.term s q.lastIndex).1 = true := by rw [hzq]; exact htq
    have hpk : patKey p ∈ (runPats s e.patterns ([], [])).1.2 :=
      runPats_key_mem s e.patterns [] [] p hp htpS
    have hqk : patKey q ∈ (runPats s (dynVals e)
        ((runPats s e.patterns ([], [])).1.1,
          (runPats s e.patterns ([], [])).1.2)).1.2 :=
      runPats_key_mem s (dynVals e) _ _ q hq htqS
    rw [hk₂] at hqk
    have hnot1 : patKey q ∉ (runPats s e.patterns ([], [])).1.2 := by
      rw [hk₁]
      intro hmem
      simp only [List.nil_append] at hmem
      obtain ⟨r, hr, hrk⟩ := List.mem_map.1 hmem
      obtain ⟨h1, h2⟩ := patKey_eq_patKey hrk
      exact hnostatic r (hsub₁.subset hr) ⟨h1, h2⟩
    have hqk₂ : patKey q ∈ qs₂.map patKey := by
      rcases List.mem_append.1 hqk with h | h
      · exact absurd h hnot1
      · exact h
    refine ⟨qs₁.map entryOf, qs₂.map entryOf, ?_, ?_, ?_⟩
    · simp only [translateS, isEmpty_false_of_ne hs, Bool.false_eq_true, if_false]
      rw [show (runPats s (dynVals e) (runPats s e.patterns ([], [])).1) =
          runPats s (dynVals e) ((runPats s e.patterns ([], [])).1.1,
            (runPats s e.patterns ([], [])).1.2) from rfl]
      rw [hf₂, hf₁]
      simp
    · rw [hk₁] at hpk
      simp only [List.nil_append] at hpk
      obtain ⟨r, hr, hrk⟩ := List.mem_map.1 hpk
      obtain ⟨h1, h2⟩ := patKey_eq_patKey hrk
      exact ⟨entryOf r, List.mem_map_of_mem _ hr, h1, h2⟩
    · obtain ⟨r, hr, hrk⟩ := List.mem_map.1 hqk₂
      obtain ⟨h1, h2⟩ := patKey_eq_patKey hrk
      exact ⟨entryOf r, List.mem_map_of_mem _ hr, h1, h2⟩
  · intro e s q hq hz ht hs
    exact matched_dynamic_entry e s hs hq hz ht

theorem dynamic_dedup_exact_key_witness :
    ∃ S D : List LinguisticTerm,
      (translateS (addDynamicTerm ⟨[⟨"cap".data, "lie".data, .GEN_Z, 0⟩], []⟩
        ("Cap".data) ("falsehood".data) .GEN_Z) ("no cap".data)).1.terms = S ++ D ∧
      (∃ x ∈ S, x.term = "cap".data ∧ x.category = .GEN_Z) ∧
      (∃ y ∈ D, y.term = "Cap".data ∧ y.category = .GEN_Z) :=
  dynamic_dedup_exact_key.1
    (addDynamicTerm ⟨[⟨"cap".data, "lie".data, .GEN_Z, 0⟩], []⟩
      ("Cap".data) ("falsehood".data) .GEN_Z)
    ("no cap".data) ⟨"cap".data, "lie".data, .GEN_Z, 0⟩
    ⟨"Cap".data, "falsehood".data, .GEN_Z, 0⟩
    (by decide) (by decide) rfl rfl (by decide) (by decide) (by decide) (by decide)

/-! ### The matcher against the spec's bounded-occurrence description -/

theorem isWordCode_foldCode (n : Nat) : isWordCode (foldCode n) = isWordCode n := by
  unfold foldCode isWordCode
  by_cases h : 65 ≤ n ∧ n ≤ 90
  · rw [if_pos h]
    exact decide_eq_decide.mpr (by omega)
  · rw [if_neg h]

/-- ASCII case folding preserves word-character-ness. -/
theorem charFold_word {a b : Char} (h : charFold a = charFold b) :
    isWordChar a = isWordChar b := by
  unfold isWordChar
  rw [← isWordCode_foldCode a.toNat, ← isWordCode_foldCode b.toNat]
  unfold charFold at h
  rw [h]

theorem occursAt_parts {term t : Str} {i : Nat} (h : occursAt term t i = true) :
    i + term.length ≤ t.length ∧
      ∀ j, j < term.length →
        charFold (t.getD (i + j) ' ') = charFold (term.getD j ' ') := by
  unfold occursAt at h
  rw [Bool.and_eq_true, List.all_eq_true] at h
  refine ⟨by simpa using h.1, fun j hj => ?_⟩
  have := h.2 j (List.mem_range.2 hj)
  simpa using this

/-- A `test` from `lastIndex = 0` succeeds iff some position matches. -/
theorem regexTest_eq_any (term t : Str) :
    regexTest term t = (List.range (t.length + 1)).any (matchAt term t) := by
  have hfil : ((List.range (t.length + 1)).filter fun i =>
      decide (0 ≤ i) && matchAt term t i) =
      (List.range (t.length + 1)).filter (matchAt term t) := by
    apply List.filter_congr
    intro i _
    simp [Nat.zero_le]
  unfold regexTest testS firstMatchFrom
  rw [hfil]
  cases hf : (List.range (t.length + 1)).filter (matchAt term t) with
  | nil =>
    have hno := List.filter_eq_nil_iff.1 hf
    simp only [List.head?]
    symm
    rw [List.any_eq_false]
    intro x hx
    simpa using hno x hx
  | cons a as =>
    have ha : a ∈ (List.range (t.length + 1)).filter (matchAt term t) := by
      rw [hf]; exact List.mem_cons_self _ _
    have hm := List.mem_filter.1 ha
    simp only [List.head?]
    symm
    rw [List.any_eq_true]
    exact ⟨a, hm.1, hm.2⟩

/-- For a term that starts and ends with word characters, the `\b`
anchors at a candidate position say exactly what the spec says: a
non-word character or the string edge on each side. -/
theorem matchAt_eq_specAt {term : Str} (hne : term ≠ [])
    (h0 : isWordChar (term.getD 0 ' ') = true)
    (h1 : isWordChar (term.getD (term.length - 1) ' ') = true)
    (t : Str) (i : Nat) :
    matchAt term t i =
      (occursAt term t i &&
        (decide (i = 0) || !isWordChar (t.getD (i - 1) ' ')) &&
        (decide (i + term.length = t.length) ||
          !isWordChar (t.getD (i + term.length) ' '))) := by
  have hlen : 0 < term.length := List.length_pos.2 hne
  cases hocc : occursAt term t i with
  | false => simp [matchAt, hocc]
  | true =>
    obtain ⟨hle, hall⟩ := occursAt_parts hocc
    have hilt : i < t.length := by omega
    have hw0 : isWordChar (t.getD i ' ') = true := by
      have hj := hall 0 hlen
      rw [Nat.add_zero] at hj
      rw [charFold_word hj]
      exact h0
    have hwl : isWordChar (t.getD (i + term.length - 1) ' ') = true := by
      have hj := hall (term.length - 1) (by omega)
      have heq : i + (term.length - 1) = i + term.length - 1 := by omega
      rw [heq] at hj
      rw [charFold_word hj]
      exact h1
    have hb1 : boundaryAt t i =
        (decide (i = 0) || !isWordChar (t.getD (i - 1) ' ')) := by
      unfold boundaryAt wordAt
      by_cases hi : i = 0
      · subst hi
        have d1 : decide (0 < t.length) = true := decide_eq_true hilt
        rw [if_pos rfl, d1, hw0]
        rfl
      · have d1 : decide (i < t.length) = true := decide_eq_true hilt
        have d2 : decide (i - 1 < t.length) = true := decide_eq_true (by omega)
        have d3 : decide (i = 0) = false := decide_eq_false hi
        rw [if_neg hi, d1, d2, hw0, d3]
        cases isWordChar (t.getD (i - 1) ' ') <;> rfl
    have hb2 : boundaryAt t (i + term.length) =
        (decide (i + term.length = t.length) ||
          !isWordChar (t.getD (i + term.length) ' ')) := by
      unfold boundaryAt wordAt
      have hne0 : ¬(i + term.length = 0) := by omega
      rw [if_neg hne0]
      have d2 : decide (i + term.length - 1 < t.length) = true :=
        decide_eq_true (by omega)
      rw [d2, hwl]
      by_cases hend : i + term.length = t.length
      · have d3 : decide (i + term.length < t.length) = false :=
          decide_eq_false (by omega)
        have d4 : decide (i + term.length = t.length) = true := decide_eq_true hend
        rw [d3, d4]
        rfl
      · have d3 : decide (i + term.length < t.length) = true :=
          decide_eq_true (by omega)
        have d4 : decide (i + term.length = t.length) = false := decide_eq_false hend
        rw [d3, d4]
        cases isWordChar (t.getD (i + term.length) ' ') <;> rfl
    unfold matchAt
    rw [hb1, hb2, hocc]
    cases (decide (i = 0) || !isWordChar (t.getD (i - 1) ' ')) <;>
      cases (decide (i + term.length = t.length) ||
        !isWordChar (t.getD (i + term.length) ' ')) <;> rfl

theorem regexTest_eq_specBounded (term t : Str)
    (hw : wordBoundedTerm term = true) :
    regexTest term t = specBoundedOccurrence term t := by
  unfold wordBoundedTerm at hw
  rw [Bool.and_eq_true, Bool.and_eq_true] at hw
  obtain ⟨⟨hne', h0⟩, h1⟩ := hw
  have hne : term ≠ [] := by
    cases term with
    | nil => simp at hne'
    | cons c cs => simp
  rw [regexTest_eq_any]
  unfold specBoundedOccurrence
  have hfun : (matchAt term t) = fun i =>
      (occursAt term t i &&
        (decide (i = 0) || !isWordChar (t.getD (i - 1) ' ')) &&
        (decide (i + term.length = t.length) ||
          !isWordChar (t.getD (i + term.length) ' '))) :=
    funext fun i => matchAt_eq_specAt hne h0 h1 t i
  rw [hfun]

/-- Claim C1, amended: for every pattern whose term is non-empty and
starts and ends with a word character — as every term of the static
dictionary does — the compiled matcher succeeds on a text iff the term
occurs there, compared case-insensitively, bounded on both sides by a
non-word character or the string start/end; and every reported match
records the canonical stored term, meaning and category of its
pattern, never the input's casing.  (For a term that starts or ends
with a non-word character the `\b` anchors invert, and the equivalence
fails — see the counterexample.) -/
theorem matcher_bounded_occurrence :
    (∀ term t : Str, wordBoundedTerm term = true →
      regexTest term t = specBoundedOccurrence term t) ∧
    (allStaticPatterns.all fun p => wordBoundedTerm p.term) = true ∧
    (∀ (e : Engine) (s : Str), ∀ x ∈ (translateS e s).1.terms,
      ∃ p : CompiledPattern, (p ∈ e.patterns ∨ p ∈ dynVals e) ∧ x = entryOf p) := by
  refine ⟨fun term t hw => regexTest_eq_specBounded term t hw, by decide, ?_⟩
  intro e s x hx
  exact translate_entry_provenance e s x hx

theorem matcher_bounded_occurrence_witness :
    regexTest ("cap".data) ("No CAP bro".data) =
      specBoundedOccurrence ("cap".data) ("No CAP bro".data) :=
  matcher_bounded_occurrence.1 ("cap".data) ("No CAP bro".data) (by decide)

/-- Claim C1, counterexample: the dynamically compiled pattern for the
term `","` refutes the claim as stated: `","` occurs in the text `","`
bounded by the string start and end, yet the `\b`-anchored matcher
fails (a `\b` next to a non-word character demands a word character
beside it), and `translate` reports no match after registering it. -/
theorem matcher_bounded_occurrence_counterexample :
    specBoundedOccurrence (",".data) (",".data) = true ∧
    regexTest (",".data) (",".data) = false ∧
    (translateS (addDynamicTerm ⟨[], []⟩ (",".data) ("comma".data) .TECH)
      (",".data)).1.terms = [] := by
  decide

/-- Claim C8, the code at the failing input: `addDynamicTerm` with the
empty term is not rejected: it stores a pattern under the key `""`,
whose regex `\b\b` matches any input containing a word boundary, so a
subsequent `translate("hi")` reports an empty-string term that an
engine without the registration does not report. -/
theorem addDynamic_empty_term_registers :
    (addDynamicTerm ⟨[], []⟩ [] ("x".data) .TECH).dynamicPatterns =
      [([], ⟨[], "x".data, .TECH, 0⟩)] ∧
    (translateS (addDynamicTerm ⟨[], []⟩ [] ("x".data) .TECH)
      ("hi".data)).1.terms = [⟨[], "x".data, .TECH⟩] ∧
    (translateS (⟨[], []⟩ : Engine) ("hi".data)).1.terms = [] := by
  decide
